import Mathlib

/-!
Verification development for the gxf2bed converter.

The Rust sources are shallowly embedded below: `u64` values are natural
numbers with explicit wrap-around modulo `2^64` where the release-profile
wrapping arithmetic matters, fallible code returns `Except`, the Rust
`BTreeSet<(u64, u64)>` of exons is a lexicographically sorted duplicate-free
list, and the `hashbrown::HashMap` accumulator is an association list in
insertion order (the claims under study never depend on hash iteration
order being anything in particular).  Rust panics (`unwrap`, `panic!`-style
aborts, `std::process::exit(1)`) are modelled as `Except.error` / a `fatal`
outcome, since each of them aborts the whole run.
-/

/-- Size of the `u64` value space. -/
def U64 : Nat := 2 ^ 64

/-- Wrapping `u64` subtraction `a - b` (release-profile semantics), for `a b < U64`. -/
def wsub (a b : Nat) : Nat := (a + (U64 - b)) % U64

/-- Wrapping `u64` addition (release-profile semantics). -/
def wadd (a b : Nat) : Nat := (a + b) % U64

/-- Split a character list at every occurrence of `c` (like Rust `split(c)`:
`n` separators produce `n + 1` segments, empty segments included). -/
def splitOnChar (c : Char) : List Char → List (List Char)
  | [] => [[]]
  | x :: xs =>
    match splitOnChar c xs with
    | s :: ss => if x = c then [] :: s :: ss else (x :: s) :: ss
    | [] => [[]]

/-- Drop every leading occurrence of `c` (the trim step of `split_and_trim_bytes`). -/
def dropLeading (c : Char) : List Char → List Char
  | [] => []
  | x :: xs => if x = c then dropLeading c xs else x :: xs

/-- Rust `str::trim_end` restricted to the ASCII whitespace the inputs contain. -/
def trimEndWs (l : List Char) : List Char :=
  (l.reverse.dropWhile Char.isWhitespace).reverse

/-- Rust `trim_matches(|c| c == '"')`: strip all leading and trailing quotes. -/
def trimQuotes (l : List Char) : List Char :=
  ((l.dropWhile (fun c => c = '"')).reverse.dropWhile (fun c => c = '"')).reverse

/-- Rust `strip_prefix` on character lists. -/
def stripPrefixL : List Char → List Char → Option (List Char)
  | [], l => some l
  | _ :: _, [] => none
  | p :: ps, x :: xs => if x = p then stripPrefixL ps xs else none

/-- The tab-separated fields of one line (`line.split('\t')`). -/
def tabFields (line : String) : List String :=
  (splitOnChar '\t' line.data).map List.asString

/-- Core of Rust `str::parse::<u64>()` after sign stripping: one or more ASCII
digits whose value must fit in a `u64` (overflow is a parse error). -/
def rustParseU64core (l : List Char) : Option Nat :=
  if l = [] then none
  else if l.all Char.isDigit then
    let v := l.foldl (fun a c => a * 10 + (c.toNat - 48)) 0
    if v < U64 then some v else none
  else none

/-- Rust `str::parse::<u64>()`: an optional leading `+`, then digits. -/
def rustParseU64 (s : String) : Option Nat :=
  rustParseU64core (if s.data.head? = some '+' then s.data.tail else s.data)

/-- Rust `str::lines`: split on `'\n'`, drop a final empty segment produced by a
trailing newline, and strip one trailing `'\r'` from each line. -/
def rustLines (s : String) : List String :=
  if s = "" then []
  else
    let parts := splitOnChar '\n' s.data
    let parts := match parts.getLast? with
      | some [] => parts.dropLast
      | _ => parts
    parts.map (fun l =>
      (match l.getLast? with
        | some '\r' => l.dropLast
        | _ => l).asString)

/-- Strand of a genomic feature (`gxf.rs`). -/
inductive Strand
  | Forward
  | Reverse
  | Unknown
deriving DecidableEq, Repr

/-- `impl FromStr for Strand`: `"+"`, `"-"`, anything else is `Unknown`. -/
def Strand.fromStr (s : String) : Strand :=
  if s = "+" then .Forward else if s = "-" then .Reverse else .Unknown

/-- `impl Display for Strand`. -/
def Strand.display : Strand → String
  | .Forward => "+"
  | .Reverse => "-"
  | .Unknown => "."

/-- Record type of a gene-prediction entity (`gxf.rs`). -/
inductive RecordType
  | Parent
  | Child
  | Unknown
deriving DecidableEq, Repr

/-- Strict lexicographic order on exon `(start, size)` pairs: the `Ord` used by
the Rust `BTreeSet<(u64, u64)>`. -/
def pairLt (a b : Nat × Nat) : Prop :=
  a.1 < b.1 ∨ (a.1 = b.1 ∧ a.2 < b.2)

instance (a b : Nat × Nat) : Decidable (pairLt a b) := by
  unfold pairLt; infer_instance

/-- Ordered duplicate-free insertion into the sorted-list model of `BTreeSet`. -/
def insertE (x : Nat × Nat) : List (Nat × Nat) → List (Nat × Nat)
  | [] => [x]
  | y :: ys => if x = y then y :: ys else if pairLt x y then x :: y :: ys else y :: insertE x ys

/-- `BTreeSet::extend`: insert every element of `q`. -/
def extendE (l q : List (Nat × Nat)) : List (Nat × Nat) :=
  q.foldl (fun acc x => insertE x acc) l

/-- The sortedness invariant of the `BTreeSet` model. -/
def SortedE (l : List (Nat × Nat)) : Prop :=
  l.Pairwise pairLt

instance (l : List (Nat × Nat)) : Decidable (SortedE l) := by
  unfold SortedE; infer_instance

/-- A gene prediction entity (`struct GenePred` of `gxf.rs`); `end` is spelled
`end_` because `end` is a Lean keyword. -/
structure GenePred where
  chr : String
  start : Nat
  end_ : Nat
  strand : Strand
  exons : List (Nat × Nat)
  record_type : RecordType
  blocks : Option (List (Nat × Nat))
deriving DecidableEq, Repr

/-- `GenePred::new()`. -/
def GenePred.new : GenePred :=
  ⟨"", 0, 0, .Unknown, [], .Unknown, none⟩

/-- `GenePred::merge` of `gxf.rs` (the cross-chunk merge operator), as a pure
function from `(self, query)` to the updated `self`. -/
def GenePred.merge (self query : GenePred) : GenePred :=
  match query.record_type with
  | .Parent =>
    { self with
      chr := query.chr
      start := query.start
      end_ := query.end_
      strand := query.strand
      record_type := .Parent
      exons := extendE self.exons query.exons }
  | .Child =>
    let s1 := if self.chr = "" then
        { self with
          chr := query.chr
          strand := query.strand
          end_ := max self.end_ query.end_ }
      else self
    let s2 := if s1.start < 1 ∧ query.start > 0 then { s1 with start := query.start }
      else if s1.start > 0 ∧ query.start > 0 then { s1 with start := min s1.start query.start }
      else s1
    let s3 := { s2 with exons := extendE s2.exons query.exons }
    if s3.record_type ≠ .Parent then { s3 with record_type := .Child } else s3
  | .Unknown =>
    let s1 := if self.chr = "" ∧ query.chr ≠ "" then
        { self with
          chr := query.chr
          strand := query.strand
          end_ := max self.end_ query.end_ }
      else self
    if s1.start < 1 ∧ query.start > 0 then { s1 with start := query.start }
    else if s1.start > 0 ∧ query.start > 0 then { s1 with start := min s1.start query.start }
    else s1

/-- The attribute key/value separator byte handed to the parser: `b' '` for GTF,
`b'='` for GFF (the only two values `to_bed` dispatches on). -/
inductive SepByte
  | space
  | eq
deriving DecidableEq, Repr

/-- The separator as a character. -/
def SepByte.char : SepByte → Char
  | .space => ' '
  | .eq => '='

/-- The `extract_field!` macro applied to one attribute segment: strip the key,
strip the separator, and trim surrounding quotes from the value. -/
def extractField (sep : Char) (key : List Char) (seg : List Char) : Option (List Char) :=
  match stripPrefixL key seg with
  | some (c :: v) => if c = sep then some (trimQuotes v) else none
  | _ => none

/-- `Attribute::parse` of `gxf/attr.rs`: an empty attribute column is the only
error; a missing key yields the empty value; the last matching segment wins. -/
def Attribute.parse (sep : SepByte) (line : String) (feature : String) : Except Unit String :=
  if line = "" then .error ()
  else
    let segs := (splitOnChar ';' (trimEndWs line.data)).map (dropLeading ' ')
    let feat := segs.foldl
      (fun acc seg =>
        match extractField sep.char feature.data seg with
        | some v => some v
        | none => acc) none
    .ok (match feat with
      | some v => v.asString
      | none => "")

/-- One parsed GXF record (`struct GxfRecord`); the `attr` field is collapsed to
its extracted feature value. -/
structure GxfRecord where
  chr : String
  feature : String
  start : Nat
  end_ : Nat
  strand : Strand
  frame : String
  attrFeature : String
deriving DecidableEq, Repr

/-- Outcome of parsing one line: `ok`, a recoverable `Result::Err`, or a Rust
panic (`fatal`), which aborts the whole process. -/
inductive PResult (α : Type)
  | ok (r : α)
  | err (e : String)
  | fatal (m : String)
deriving DecidableEq, Repr

/-- Whether a parse outcome is a panic. -/
def PResult.isFatal {α : Type} : PResult α → Bool
  | .fatal _ => true
  | _ => false

/-- `GxfRecord::parse`: empty line is a recoverable error; fewer than nine
tab-separated fields, an empty attribute column, or an unparsable `start`/`end`
panic, in the source's evaluation order.  The 0-based start is
`raw_start - 1` with `u64` wrap-around. -/
def GxfRecord.parse (sep : SepByte) (line : String) (attrKey : String) : PResult GxfRecord :=
  if line = "" then .err "Empty line"
  else
    match tabFields line with
    | chr :: _src :: feature :: start :: end_ :: _score :: strand :: frame :: attr :: _ =>
      match Attribute.parse sep attr attrKey with
      | .error _ => .fatal "Error parsing attributes"
      | .ok feat =>
        match rustParseU64 start with
        | none => .fatal "ERROR: cannot parse start"
        | some s =>
          match rustParseU64 end_ with
          | none => .fatal "ERROR: cannot parse end"
          | some e =>
            .ok ⟨chr, feature, wsub s 1, e, Strand.fromStr strand, frame, feat⟩
    | _ => .fatal "ERROR: missing field from GTF records"

/-- `GxfRecord::has_feature`. -/
def GxfRecord.has_feature (r : GxfRecord) : Bool :=
  ¬ r.attrFeature = ""

/-- Whether a line is a comment (`row.starts_with("#")`). -/
def rowStartsHash (row : String) : Bool :=
  match row.data with
  | c :: _ => c = '#'
  | [] => false

/-- `HashMap::entry(key).or_insert_with(GenePred::new)` followed by a mutation,
on the association-list model of the accumulator. -/
def updateEntry (acc : List (String × GenePred)) (key : String)
    (f : GenePred → GenePred) : List (String × GenePred) :=
  match acc with
  | [] => [(key, f GenePred.new)]
  | (k, v) :: rest =>
    if k = key then (k, f v) :: rest else (k, v) :: updateEntry rest key f

/-- The per-record body of the `for_each` in `utils.rs::to_bed`: the three
sequential `if`s updating one entity. -/
def foldRecord (parent child : String) (e : GenePred) (r : GxfRecord) : GenePred :=
  let e := if r.feature = parent then
      { e with
        chr := r.chr
        start := r.start
        end_ := r.end_
        strand := r.strand
        record_type := .Parent }
    else e
  let e := if child = "CDS" ∧ r.feature = "exon" then
      { e with blocks := some (insertE (r.start, wsub r.end_ r.start) (e.blocks.getD [])) }
    else e
  if r.feature = child then
    let e := { e with exons := insertE (r.start, wsub r.end_ r.start) e.exons }
    if e.record_type ≠ .Parent then { e with record_type := .Child } else e
  else e

/-- One `for_each` step of `utils.rs::to_bed` lifted over the run state:
comment lines are filtered, recoverable parse errors are silently dropped by
`.ok()` inside `filter_map`, a panic aborts the run (and a run already aborted
stays aborted). -/
def toBedStep (parent child feature : String) (sep : SepByte)
    (acc : Except String (List (String × GenePred))) (row : String) :
    Except String (List (String × GenePred)) :=
  match acc with
  | .error m => .error m
  | .ok m =>
    if rowStartsHash row then .ok m
    else
      match GxfRecord.parse sep row feature with
      | .err _ => .ok m
      | .fatal msg => .error msg
      | .ok r => .ok (updateEntry m r.attrFeature (fun e => foldRecord parent child e r))

/-- `utils.rs::to_bed` over an explicit list of lines. -/
def to_bed_lines (lines : List String) (parent child feature : String) (sep : SepByte) :
    Except String (List (String × GenePred)) :=
  lines.foldl (toBedStep parent child feature sep) (.ok [])

/-- `utils.rs::to_bed` on the raw file contents (`content.lines()`). -/
def to_bed (content : String) (parent child feature : String) (sep : SepByte) :
    Except String (List (String × GenePred)) :=
  to_bed_lines (rustLines content) parent child feature sep

/-- One fully composed BED12 output row of `utils.rs::write_obj`, before
serialization (the twelve `format!` arguments in order). -/
structure RowData where
  chr : String
  start : Nat
  end_ : Nat
  name : String
  score : String
  strand : Strand
  thickStart : Nat
  thickEnd : Nat
  rgb : String
  blockCount : Nat
  blockSizes : String
  blockStarts : String
deriving DecidableEq, Repr

/-- `GenePred::get_exon_count`. -/
def GenePred.get_exon_count (e : GenePred) : Nat :=
  e.exons.length

/-- `GenePred::get_exon_sizes` (the second component of each exon pair). -/
def GenePred.get_exon_sizes (e : GenePred) : List Nat :=
  e.exons.map (fun item => item.2)

/-- `GenePred::get_exon_starts_relative`: each exon start minus the entity
start; an exon start below the entity start panics, aborting the run. -/
def GenePred.get_exon_starts_relative (e : GenePred) : Except String (List Nat) :=
  e.exons.mapM (fun item =>
    if e.start > item.1 then
      .error "ERROR: exon start is less than gene prediction start"
    else .ok (item.1 - e.start))

/-- Rust `join(",") + ","` on rendered numbers. -/
def joinComma : List Nat → String
  | [] => ""
  | [n] => Nat.repr n
  | n :: ns => Nat.repr n ++ "," ++ joinComma ns

/-- Comma-joined list with the trailing comma appended by `get_exons_info`. -/
def withTrailingComma (ns : List Nat) : String :=
  joinComma ns ++ ","

/-- The initial CDS start of `write_obj`: start of the first exon, defaulting to
the entity start when there is no exon. -/
def cdsStartOf (e : GenePred) : Nat :=
  match e.exons.head? with
  | some p => p.1
  | none => e.start

/-- The initial CDS end of `write_obj`: end (`start + size`, wrapping) of the
last exon, defaulting to the entity end when there is no exon. -/
def cdsEndOf (e : GenePred) : Nat :=
  match e.exons.getLast? with
  | some p => wadd p.1 p.2
  | none => e.end_

/-- Shared tail of the `write_obj` loop body: render the block lists (which can
panic), run the `start >= end` fatal check, and compose the row. -/
def renderTail (transcript : String) (info : GenePred) (cds_start cds_end : Nat) :
    Except String RowData :=
  let exon_sizes := withTrailingComma info.get_exon_sizes
  match info.get_exon_starts_relative with
  | .error m => .error m
  | .ok rels =>
    let exon_starts := withTrailingComma rels
    if cds_start ≥ cds_end ∨ info.start ≥ info.end_ then
      .error "ERROR: start >= end in record"
    else
      .ok ⟨info.chr, info.start, info.end_, transcript, "0", info.strand,
        cds_start, cds_end, "0", info.get_exon_count, exon_sizes, exon_starts⟩

/-- The `write_obj` loop body for one entity with a non-empty exon set:
CDS-block substitution and stop-codon adjustment when the child feature is
`"CDS"`, first/last exon snapping to the entity bounds otherwise, then the
fatal checks and row composition.  Every `Except.error` models a
`std::process::exit(1)` or panic aborting the run. -/
def renderCore (transcript : String) (info0 : GenePred) (child : String) :
    Except String RowData :=
  let cds_start := cdsStartOf info0
  let cds_end := cdsEndOf info0
  if child = "CDS" then
    match info0.blocks with
    | none => .error "ERROR: No blocks found for transcript"
    | some bs =>
      let info := { info0 with exons := extendE [] bs, blocks := some [] }
      match info.strand with
      | .Forward => renderTail transcript info cds_start (wadd cds_end 3)
      | .Reverse => renderTail transcript info (wsub cds_start 3) cds_end
      | .Unknown => .error "ERROR: Unknown strand in record"
  else
    let info := match info0.exons.head?, info0.exons.getLast? with
      | some (first_start, first_size), some (last_start, last_size) =>
        let exons1 := (info0.exons.erase (first_start, first_size)).erase (last_start, last_size)
        let first_end := wadd first_start first_size
        let new_first_size := first_end - info0.start
        let new_last_size := info0.end_ - last_start
        let snapped := insertE (last_start, new_last_size) (insertE (info0.start, new_first_size) exons1)
        { info0 with exons := snapped }
      | _, _ => info0
    renderTail transcript info cds_start cds_end

/-- Serialization of one row: the `format!` string of `write_obj` plus the
newline appended by `writeln!`. -/
def rowString (r : RowData) : String :=
  r.chr ++ "\t" ++ Nat.repr r.start ++ "\t" ++ Nat.repr r.end_ ++ "\t" ++
    r.name ++ "\t" ++ r.score ++ "\t" ++ r.strand.display ++ "\t" ++
    Nat.repr r.thickStart ++ "\t" ++ Nat.repr r.thickEnd ++ "\t" ++ r.rgb ++ "\t" ++
    Nat.repr r.blockCount ++ "\t" ++ r.blockSizes ++ "\t" ++ r.blockStarts ++ "\n"

/-- `utils.rs::write_obj` on the association-list model of the map: returns the
concatenated output bytes together with the skip counter, or the message of the
first fatal abort.  Entities with an empty exon set are skipped and counted. -/
def write_obj : List (String × GenePred) → String → Except String (String × Nat)
  | [], _ => .ok ("", 0)
  | (transcript, info) :: rest, child =>
    if info.exons = [] then
      match write_obj rest child with
      | .ok (out, skips) => .ok (out, skips + 1)
      | .error m => .error m
    else
      match renderCore transcript info child with
      | .error m => .error m
      | .ok rd =>
        match write_obj rest child with
        | .ok (out, skips) => .ok (rowString rd ++ out, skips)
        | .error m => .error m

/-- The index-tagged per-chunk outputs of `convert.rs::process_reader` computed
in sequential order: chunk `i` of the stream is rendered to its own byte buffer
by the (externally supplied) renderer and tagged with `i`.  Rayon's scheduling
may deliver these pairs in any order; that reordering is the permutation
hypothesis of the theorem below. -/
def seqChunkOutputs {α : Type} (render : List α → List Nat) (chunks : List (List α)) :
    List (Nat × List Nat) :=
  chunks.enum.map (fun p => (p.1, render p.2))

/-- `merged.sort_by_key(|(idx, _)| *idx)` of `process_reader`, modelled as an
insertion sort on the chunk index. -/
def insertByIdx (x : Nat × List Nat) : List (Nat × List Nat) → List (Nat × List Nat)
  | [] => [x]
  | y :: ys => if x.1 ≤ y.1 then x :: y :: ys else y :: insertByIdx x ys

/-- Sorting the collected chunk buffers by chunk index. -/
def sortByIdx (outs : List (Nat × List Nat)) : List (Nat × List Nat) :=
  outs.foldr insertByIdx []

/-- `convert.rs::write_output`: concatenate the chunk buffers in list order. -/
def write_output (chunks : List (Nat × List Nat)) : List Nat :=
  (chunks.map (fun p => p.2)).flatten

/-- A chunk-level partial aggregation result: what one `to_bed`-style fold over
a slice of the record stream can produce for one key (and what `merge`
reproduces when reducing such partials).  A `Child`/`Unknown` partial carries
blank coordinates because the child branch of the fold never writes them; a
`Parent` partial has the chromosome field of its parent record, which is a
non-empty column; no partial carries CDS blocks. -/
def chunkPartial (e : GenePred) : Prop :=
  SortedE e.exons ∧ e.blocks = none ∧
  (e.record_type = .Parent → e.chr ≠ "") ∧
  (e.record_type ≠ .Parent → e.chr = "" ∧ e.start = 0 ∧ e.end_ = 0 ∧ e.strand = .Unknown) ∧
  (e.record_type = .Unknown → e.exons = [])

instance (e : GenePred) : Decidable (chunkPartial e) := by
  unfold chunkPartial; infer_instance

/-- The record-type lattice join implemented by `merge` (Parent beats Child
beats Unknown). -/
def rtMax : RecordType → RecordType → RecordType
  | _, .Parent => .Parent
  | s, .Child => if s = .Parent then .Parent else .Child
  | s, .Unknown => s

/-- Chromosome of the merged partial: the unique Parent's, else blank. -/
def pChr (a b : GenePred) : String :=
  if b.record_type = .Parent then b.chr else if a.record_type = .Parent then a.chr else ""

/-- Start of the merged partial: the unique Parent's, else 0. -/
def pStart (a b : GenePred) : Nat :=
  if b.record_type = .Parent then b.start else if a.record_type = .Parent then a.start else 0

/-- End of the merged partial: the unique Parent's, else 0. -/
def pEnd (a b : GenePred) : Nat :=
  if b.record_type = .Parent then b.end_ else if a.record_type = .Parent then a.end_ else 0

/-- Strand of the merged partial: the unique Parent's, else Unknown. -/
def pStrand (a b : GenePred) : Strand :=
  if b.record_type = .Parent then b.strand else if a.record_type = .Parent then a.strand else .Unknown

/-- Rank of a record type in the Parent-beats-Child-beats-Unknown order. -/
def rtRank : RecordType → Nat
  | .Unknown => 0
  | .Child => 1
  | .Parent => 2

/-- The only-upgrade order on record types. -/
def rtLe (x y : RecordType) : Prop := rtRank x ≤ rtRank y

theorem pairLt_irrefl (a : Nat × Nat) : ¬ pairLt a a := by
  simp [pairLt]

theorem pairLt_trans {a b c : Nat × Nat} (h1 : pairLt a b) (h2 : pairLt b c) : pairLt a c := by
  rcases h1 with h1 | ⟨e1, h1⟩ <;> rcases h2 with h2 | ⟨e2, h2⟩ <;>
    simp [pairLt, *] <;> omega

theorem pairLt_asymm {a b : Nat × Nat} (h : pairLt a b) : ¬ pairLt b a := by
  intro h'
  exact pairLt_irrefl a (pairLt_trans h h')

theorem pairLt_ne {a b : Nat × Nat} (h : pairLt a b) : a ≠ b := by
  rintro rfl
  exact pairLt_irrefl a h

theorem pairLt_trichotomy (a b : Nat × Nat) : pairLt a b ∨ a = b ∨ pairLt b a := by
  rcases a with ⟨a1, a2⟩
  rcases b with ⟨b1, b2⟩
  simp [pairLt, Prod.ext_iff]
  omega

instance : IsAntisymm (Nat × Nat) pairLt :=
  ⟨fun _ _ h h' => absurd h' (pairLt_asymm h)⟩

theorem mem_insertE {x y : Nat × Nat} {l : List (Nat × Nat)} :
    y ∈ insertE x l ↔ y = x ∨ y ∈ l := by
  induction l with
  | nil => simp [insertE]
  | cons z zs ih =>
    by_cases h1 : x = z
    · subst h1
      rw [insertE, if_pos rfl]
      constructor
      · intro h; exact Or.inr h
      · rintro (rfl | h)
        · exact List.mem_cons_self _ _
        · exact h
    · by_cases h2 : pairLt x z
      · rw [insertE, if_neg h1, if_pos h2]
        simp
      · rw [insertE, if_neg h1, if_neg h2]
        rw [List.mem_cons, List.mem_cons, ih]
        tauto

theorem sortedE_insertE {x : Nat × Nat} {l : List (Nat × Nat)} (h : SortedE l) :
    SortedE (insertE x l) := by
  induction l with
  | nil =>
    rw [insertE]
    exact List.pairwise_singleton pairLt x
  | cons z zs ih =>
    rw [SortedE, List.pairwise_cons] at h
    obtain ⟨hz, hzs⟩ := h
    by_cases h1 : x = z
    · subst h1
      rw [insertE, if_pos rfl, SortedE, List.pairwise_cons]
      exact ⟨hz, hzs⟩
    · by_cases h2 : pairLt x z
      · rw [insertE, if_neg h1, if_pos h2, SortedE, List.pairwise_cons]
        constructor
        · intro y hy
          rcases List.mem_cons.1 hy with rfl | hy
          · exact h2
          · exact pairLt_trans h2 (hz y hy)
        · rw [List.pairwise_cons]
          exact ⟨hz, hzs⟩
      · rcases pairLt_trichotomy x z with h3 | h3 | h3
        · exact absurd h3 h2
        · exact absurd h3 h1
        · rw [insertE, if_neg h1, if_neg h2, SortedE, List.pairwise_cons]
          constructor
          · intro y hy
            rcases mem_insertE.1 hy with rfl | hy
            · exact h3
            · exact hz y hy
          · exact ih hzs

theorem extendE_cons (l : List (Nat × Nat)) (x : Nat × Nat) (q : List (Nat × Nat)) :
    extendE l (x :: q) = extendE (insertE x l) q := rfl

theorem extendE_nil_right (l : List (Nat × Nat)) : extendE l [] = l := rfl

theorem mem_extendE {y : Nat × Nat} {l q : List (Nat × Nat)} :
    y ∈ extendE l q ↔ y ∈ l ∨ y ∈ q := by
  induction q generalizing l with
  | nil => simp [extendE_nil_right]
  | cons x xs ih =>
    rw [extendE_cons, ih, mem_insertE]
    simp
    tauto

theorem sortedE_extendE {l q : List (Nat × Nat)} (h : SortedE l) : SortedE (extendE l q) := by
  induction q generalizing l with
  | nil => exact h
  | cons x xs ih =>
    rw [extendE_cons]
    exact ih (sortedE_insertE h)

theorem sortedE_nodup {l : List (Nat × Nat)} (h : SortedE l) : l.Nodup :=
  h.imp pairLt_ne

theorem sortedE_ext {l1 l2 : List (Nat × Nat)} (h1 : SortedE l1) (h2 : SortedE l2)
    (hm : ∀ a, a ∈ l1 ↔ a ∈ l2) : l1 = l2 :=
  List.eq_of_perm_of_sorted
    ((List.perm_ext_iff_of_nodup (sortedE_nodup h1) (sortedE_nodup h2)).2 hm) h1 h2

theorem extendE_nil_left {q : List (Nat × Nat)} (h : SortedE q) : extendE [] q = q := by
  refine sortedE_ext (sortedE_extendE ?_) h ?_
  · exact List.Pairwise.nil
  · intro a
    simp [mem_extendE]

theorem extendE_comm {l q : List (Nat × Nat)} (h1 : SortedE l) (h2 : SortedE q) :
    extendE l q = extendE q l := by
  refine sortedE_ext (sortedE_extendE h1) (sortedE_extendE h2) ?_
  intro a
  rw [mem_extendE, mem_extendE]
  tauto

theorem extendE_assoc {a b c : List (Nat × Nat)} (ha : SortedE a) :
    extendE (extendE a b) c = extendE a (extendE b c) := by
  refine sortedE_ext (sortedE_extendE (sortedE_extendE ha)) (sortedE_extendE ha) ?_
  intro y
  rw [mem_extendE, mem_extendE, mem_extendE, mem_extendE]
  tauto

example : SortedE [(1,2),(3,4)] := by decide

theorem insertByIdx_perm (x : Nat × List Nat) (l : List (Nat × List Nat)) :
    (insertByIdx x l).Perm (x :: l) := by
  induction l with
  | nil => rfl
  | cons y ys ih =>
    rw [insertByIdx]
    by_cases h : x.1 ≤ y.1
    · rw [if_pos h]
    · rw [if_neg h]
      exact (ih.cons y).trans (List.Perm.swap x y ys)

theorem sortByIdx_perm (l : List (Nat × List Nat)) : (sortByIdx l).Perm l := by
  induction l with
  | nil => rfl
  | cons x xs ih =>
    have : sortByIdx (x :: xs) = insertByIdx x (sortByIdx xs) := rfl
    rw [this]
    exact (insertByIdx_perm x (sortByIdx xs)).trans (ih.cons x)

theorem sorted_insertByIdx {x : Nat × List Nat} {l : List (Nat × List Nat)}
    (h : l.Pairwise (fun a b => a.1 ≤ b.1)) :
    (insertByIdx x l).Pairwise (fun a b => a.1 ≤ b.1) := by
  induction l with
  | nil => exact List.pairwise_singleton _ x
  | cons y ys ih =>
    rw [List.pairwise_cons] at h
    obtain ⟨hy, hys⟩ := h
    rw [insertByIdx]
    by_cases hle : x.1 ≤ y.1
    · rw [if_pos hle, List.pairwise_cons]
      constructor
      · intro z hz
        rcases List.mem_cons.1 hz with rfl | hz
        · exact hle
        · exact le_trans hle (hy z hz)
      · rw [List.pairwise_cons]
        exact ⟨hy, hys⟩
    · rw [if_neg hle, List.pairwise_cons]
      constructor
      · intro z hz
        have := (insertByIdx_perm x ys).mem_iff.1 hz
        rcases List.mem_cons.1 this with rfl | hz'
        · omega
        · exact hy z hz'
      · exact ih hys

theorem sorted_sortByIdx (l : List (Nat × List Nat)) :
    (sortByIdx l).Pairwise (fun a b => a.1 ≤ b.1) := by
  induction l with
  | nil => exact List.Pairwise.nil
  | cons x xs ih => exact sorted_insertByIdx ih


instance : IsAntisymm (Nat × List Nat) (fun a b => a.1 < b.1) :=
  ⟨fun _ _ h h' => absurd h' (not_lt.2 (le_of_lt h))⟩

theorem seqChunkOutputs_map_fst {α : Type} (render : List α → List Nat) (chunks : List (List α)) :
    (seqChunkOutputs render chunks).map Prod.fst = List.range chunks.length := by
  rw [seqChunkOutputs, List.map_map]
  have : (Prod.fst ∘ fun p : Nat × List α => (p.1, render p.2)) = Prod.fst := by
    funext p
    rfl
  rw [this, List.enum_map_fst]

theorem seqChunkOutputs_sorted {α : Type} (render : List α → List Nat) (chunks : List (List α)) :
    (seqChunkOutputs render chunks).Pairwise (fun a b => a.1 < b.1) := by
  have h1 : ((seqChunkOutputs render chunks).map Prod.fst).Pairwise (· < ·) := by
    rw [seqChunkOutputs_map_fst]
    exact List.pairwise_lt_range _
  exact (List.pairwise_map.1 h1)

/-- C2 core: any scheduling-order permutation of the index-tagged chunk buffers,
once sorted by index, is the sequential list itself. -/
theorem sortByIdx_of_perm_seq {α : Type} {render : List α → List Nat}
    {chunks : List (List α)} {outs : List (Nat × List Nat)}
    (hperm : outs.Perm (seqChunkOutputs render chunks)) :
    sortByIdx outs = seqChunkOutputs render chunks := by
  have hp : (sortByIdx outs).Perm (seqChunkOutputs render chunks) :=
    (sortByIdx_perm outs).trans hperm
  have hnodup : ((sortByIdx outs).map Prod.fst).Nodup := by
    have : ((sortByIdx outs).map Prod.fst).Perm ((seqChunkOutputs render chunks).map Prod.fst) :=
      hp.map Prod.fst
    rw [this.nodup_iff, seqChunkOutputs_map_fst]
    exact List.nodup_range _
  have hne : (sortByIdx outs).Pairwise (fun a b => a.1 ≠ b.1) :=
    List.pairwise_map.1 hnodup
  have hlt : (sortByIdx outs).Pairwise (fun a b => a.1 < b.1) :=
    ((sorted_sortByIdx outs).and hne).imp (fun h => lt_of_le_of_ne h.1 h.2)
  exact List.eq_of_perm_of_sorted hp hlt (seqChunkOutputs_sorted render chunks)

theorem merge_chunkPartial_eq {a b : GenePred} (ha : chunkPartial a) (hb : chunkPartial b)
    (hp : ¬(a.record_type = .Parent ∧ b.record_type = .Parent)) :
    a.merge b = ⟨pChr a b, pStart a b, pEnd a b, pStrand a b,
      extendE a.exons b.exons, rtMax a.record_type b.record_type, none⟩ := by
  obtain ⟨hsa, hba, hpa, hca, hua⟩ := ha
  obtain ⟨hsb, hbb, hpb, hcb, hub⟩ := hb
  rcases a with ⟨achr, astart, aend, astrand, aex, art, ablk⟩
  rcases b with ⟨bchr, bstart, bend, bstrand, bex, brt, bblk⟩
  simp only at hba hbb hpa hca hua hpb hcb hub hp ⊢
  subst hba
  subst hbb
  rcases art <;> rcases brt
  case Parent.Parent => exact absurd ⟨rfl, rfl⟩ hp
  case Parent.Child =>
    have h1 := hpa rfl
    obtain ⟨e1, e2, e3, e4⟩ := hcb (by simp)
    subst e1; subst e2; subst e3; subst e4
    simp [GenePred.merge, pChr, pStart, pEnd, pStrand, rtMax, h1]
  case Parent.Unknown =>
    have h1 := hpa rfl
    obtain ⟨e1, e2, e3, e4⟩ := hcb (by simp)
    have h5 := hub rfl
    subst e1; subst e2; subst e3; subst e4; subst h5
    simp [GenePred.merge, pChr, pStart, pEnd, pStrand, rtMax, h1, extendE_nil_right]
  case Child.Parent =>
    obtain ⟨e1, e2, e3, e4⟩ := hca (by simp)
    subst e1; subst e2; subst e3; subst e4
    simp [GenePred.merge, pChr, pStart, pEnd, pStrand, rtMax]
  case Child.Child =>
    obtain ⟨e1, e2, e3, e4⟩ := hca (by simp)
    subst e1; subst e2; subst e3; subst e4
    obtain ⟨f1, f2, f3, f4⟩ := hcb (by simp)
    subst f1; subst f2; subst f3; subst f4
    simp [GenePred.merge, pChr, pStart, pEnd, pStrand, rtMax]
  case Child.Unknown =>
    obtain ⟨e1, e2, e3, e4⟩ := hca (by simp)
    subst e1; subst e2; subst e3; subst e4
    obtain ⟨f1, f2, f3, f4⟩ := hcb (by simp)
    subst f1; subst f2; subst f3; subst f4
    have h5 := hub rfl
    subst h5
    simp [GenePred.merge, pChr, pStart, pEnd, pStrand, rtMax, extendE_nil_right]
  case Unknown.Parent =>
    obtain ⟨e1, e2, e3, e4⟩ := hca (by simp)
    subst e1; subst e2; subst e3; subst e4
    simp [GenePred.merge, pChr, pStart, pEnd, pStrand, rtMax]
  case Unknown.Child =>
    obtain ⟨e1, e2, e3, e4⟩ := hca (by simp)
    subst e1; subst e2; subst e3; subst e4
    obtain ⟨f1, f2, f3, f4⟩ := hcb (by simp)
    subst f1; subst f2; subst f3; subst f4
    simp [GenePred.merge, pChr, pStart, pEnd, pStrand, rtMax]
  case Unknown.Unknown =>
    obtain ⟨e1, e2, e3, e4⟩ := hca (by simp)
    subst e1; subst e2; subst e3; subst e4
    obtain ⟨f1, f2, f3, f4⟩ := hcb (by simp)
    subst f1; subst f2; subst f3; subst f4
    have h5 := hua rfl
    have h6 := hub rfl
    subst h5; subst h6
    simp [GenePred.merge, pChr, pStart, pEnd, pStrand, rtMax, extendE_nil_right]

theorem rtMax_eq_parent {x y : RecordType} :
    rtMax x y = .Parent ↔ x = .Parent ∨ y = .Parent := by
  rcases x <;> rcases y <;> simp [rtMax]

theorem merge_chunkPartial_closed {a b : GenePred} (ha : chunkPartial a) (hb : chunkPartial b)
    (hp : ¬(a.record_type = .Parent ∧ b.record_type = .Parent)) :
    chunkPartial (a.merge b) := by
  rw [merge_chunkPartial_eq ha hb hp]
  obtain ⟨hsa, hba, hpa, hca, hua⟩ := ha
  obtain ⟨hsb, hbb, hpb, hcb, hub⟩ := hb
  refine ⟨sortedE_extendE hsa, rfl, ?_, ?_, ?_⟩
  · intro h
    simp only at h ⊢
    rcases rtMax_eq_parent.1 h with hA | hB
    · have hBne : b.record_type ≠ .Parent := fun hB => hp ⟨hA, hB⟩
      rw [pChr, if_neg hBne, if_pos hA]
      exact hpa hA
    · rw [pChr, if_pos hB]
      exact hpb hB
  · intro h
    simp only at h ⊢
    have hA : a.record_type ≠ .Parent := fun hA => h (rtMax_eq_parent.2 (Or.inl hA))
    have hB : b.record_type ≠ .Parent := fun hB => h (rtMax_eq_parent.2 (Or.inr hB))
    simp [pChr, pStart, pEnd, pStrand, hA, hB]
  · intro h
    simp only at h ⊢
    rcases hx : a.record_type <;> rcases hy : b.record_type <;> rw [hx, hy] at h <;>
      simp [rtMax] at h
    rw [hua hx, hub hy]
    rfl

theorem merge_comm_partials {a b : GenePred} (ha : chunkPartial a) (hb : chunkPartial b)
    (hp : ¬(a.record_type = .Parent ∧ b.record_type = .Parent)) :
    a.merge b = b.merge a := by
  rw [merge_chunkPartial_eq ha hb hp,
    merge_chunkPartial_eq hb ha (fun h => hp ⟨h.2, h.1⟩)]
  have hex : extendE a.exons b.exons = extendE b.exons a.exons := extendE_comm ha.1 hb.1
  rcases hA : a.record_type <;> rcases hB : b.record_type <;>
    simp_all [pChr, pStart, pEnd, pStrand, rtMax]

theorem merge_assoc_partials {a b c : GenePred}
    (ha : chunkPartial a) (hb : chunkPartial b) (hc : chunkPartial c)
    (hab : ¬(a.record_type = .Parent ∧ b.record_type = .Parent))
    (hac : ¬(a.record_type = .Parent ∧ c.record_type = .Parent))
    (hbc : ¬(b.record_type = .Parent ∧ c.record_type = .Parent)) :
    (a.merge b).merge c = a.merge (b.merge c) := by
  have h1 : chunkPartial (a.merge b) := merge_chunkPartial_closed ha hb hab
  have h2 : chunkPartial (b.merge c) := merge_chunkPartial_closed hb hc hbc
  have hp1 : ¬((a.merge b).record_type = .Parent ∧ c.record_type = .Parent) := by
    rw [merge_chunkPartial_eq ha hb hab]
    rintro ⟨h, hC⟩
    simp only at h
    rcases rtMax_eq_parent.1 h with hA | hB
    · exact hac ⟨hA, hC⟩
    · exact hbc ⟨hB, hC⟩
  have hp2 : ¬(a.record_type = .Parent ∧ (b.merge c).record_type = .Parent) := by
    rw [merge_chunkPartial_eq hb hc hbc]
    rintro ⟨hA, h⟩
    simp only at h
    rcases rtMax_eq_parent.1 h with hB | hC
    · exact hab ⟨hA, hB⟩
    · exact hac ⟨hA, hC⟩
  rw [merge_chunkPartial_eq h1 hc hp1, merge_chunkPartial_eq ha h2 hp2,
    merge_chunkPartial_eq ha hb hab, merge_chunkPartial_eq hb hc hbc]
  have hex : extendE (extendE a.exons b.exons) c.exons
      = extendE a.exons (extendE b.exons c.exons) := extendE_assoc ha.1
  rcases hA : a.record_type <;> rcases hB : b.record_type <;> rcases hC : c.record_type <;>
    simp_all [pChr, pStart, pEnd, pStrand, rtMax]

theorem merge_record_type (a b : GenePred) :
    (a.merge b).record_type = rtMax a.record_type b.record_type := by
  rcases hq : b.record_type <;> rcases hs : a.record_type <;>
    simp only [GenePred.merge, hq] <;> (try split_ifs) <;> simp_all [rtMax]

theorem foldRecord_record_type_le (parent child : String) (e : GenePred) (r : GxfRecord) :
    rtLe e.record_type (foldRecord parent child e r).record_type := by
  rcases hs : e.record_type <;>
    simp only [foldRecord] <;> (try split_ifs) <;> simp_all [rtLe, rtRank]

theorem rtLe_rtMax_left (x y : RecordType) : rtLe x (rtMax x y) := by
  rcases x <;> rcases y <;> simp [rtLe, rtMax, rtRank]

theorem renderTail_ok_thick {t : String} {i : GenePred} {cs ce : Nat} {rd : RowData}
    (h : renderTail t i cs ce = .ok rd) : rd.thickStart = cs ∧ rd.thickEnd = ce := by
  simp only [renderTail] at h
  rcases hr : i.get_exon_starts_relative with m | rels <;> rw [hr] at h <;> dsimp only at h
  · cases h
  · by_cases hc : cs ≥ ce ∨ i.start ≥ i.end_
    · rw [if_pos hc] at h
      cases h
    · rw [if_neg hc] at h
      simp only [Except.ok.injEq] at h
      subst h
      exact ⟨rfl, rfl⟩

theorem renderTail_error_of_bad {t : String} {i : GenePred} {cs ce : Nat}
    (h : cs ≥ ce ∨ i.start ≥ i.end_) : ∃ m, renderTail t i cs ce = .error m := by
  simp only [renderTail]
  rcases hr : i.get_exon_starts_relative with m | rels <;> dsimp only
  · exact ⟨m, rfl⟩
  · rw [if_pos h]
    exact ⟨_, rfl⟩

theorem renderCore_thick_of_not_cds {t : String} {e : GenePred} {child : String} {rd : RowData}
    (hch : child ≠ "CDS") (h : renderCore t e child = .ok rd) :
    rd.thickStart = cdsStartOf e ∧ rd.thickEnd = cdsEndOf e := by
  simp only [renderCore] at h
  rw [if_neg hch] at h
  exact renderTail_ok_thick h

theorem renderCore_error_of_start_ge {t : String} {e : GenePred} {child : String}
    (h2 : e.start ≥ e.end_) : ∃ m, renderCore t e child = .error m := by
  simp only [renderCore]
  by_cases hch : child = "CDS"
  · rw [if_pos hch]
    rcases e.blocks with _ | bs
    · exact ⟨_, rfl⟩
    · rcases hs : ({ e with exons := extendE [] bs, blocks := some [] } : GenePred).strand
      · exact renderTail_error_of_bad (Or.inr h2)
      · exact renderTail_error_of_bad (Or.inr h2)
      · exact ⟨_, rfl⟩
  · rw [if_neg hch]
    rcases hh : e.exons.head? with _ | p
    · exact renderTail_error_of_bad (Or.inr h2)
    · rcases hl : e.exons.getLast? with _ | q
      · rcases p with ⟨ps, pz⟩
        exact renderTail_error_of_bad (Or.inr h2)
      · rcases p with ⟨ps, pz⟩
        rcases q with ⟨qs, qz⟩
        exact renderTail_error_of_bad (Or.inr h2)

theorem renderCore_error_of_thick_bad {t : String} {e : GenePred} {child : String}
    (hch : child ≠ "CDS") (h : cdsStartOf e ≥ cdsEndOf e) :
    ∃ m, renderCore t e child = .error m := by
  simp only [renderCore]
  rw [if_neg hch]
  exact renderTail_error_of_bad (Or.inl h)

theorem write_obj_cons_empty {n : String} {e : GenePred} {rest : List (String × GenePred)}
    {child : String} (he : e.exons = []) :
    write_obj ((n, e) :: rest) child
      = (write_obj rest child).map (fun p => (p.1, p.2 + 1)) := by
  simp only [write_obj, if_pos he]
  rcases write_obj rest child with m | ⟨o, k⟩ <;> rfl

theorem write_obj_cons_render {n : String} {e : GenePred} {rest : List (String × GenePred)}
    {child : String} (he : ¬ e.exons = []) :
    write_obj ((n, e) :: rest) child
      = match renderCore n e child with
        | .error m => .error m
        | .ok rd =>
          match write_obj rest child with
          | .ok (out, skips) => .ok (rowString rd ++ out, skips)
          | .error m => .error m := by
  simp only [write_obj, if_neg he]

theorem write_obj_error_of_mem {data : List (String × GenePred)} {child n : String}
    {e : GenePred} (hmem : (n, e) ∈ data) (hne : ¬ e.exons = [])
    (hrc : ∃ m, renderCore n e child = .error m) :
    ∃ m, write_obj data child = .error m := by
  induction data with
  | nil => cases hmem
  | cons hd tl ih =>
    rcases hd with ⟨hn, hv⟩
    rcases List.mem_cons.1 hmem with heq | htl
    · obtain ⟨rfl, rfl⟩ := Prod.mk.injEq .. ▸ And.intro (congrArg Prod.fst heq) (congrArg Prod.snd heq)
      obtain ⟨m, hm⟩ := hrc
      rw [write_obj_cons_render hne, hm]
      exact ⟨m, rfl⟩
    · by_cases hv0 : hv.exons = []
      · obtain ⟨m, hm⟩ := ih htl
        rw [write_obj_cons_empty hv0, hm]
        exact ⟨m, rfl⟩
      · rw [write_obj_cons_render hv0]
        rcases hr : renderCore hn hv child with m | rd
        · exact ⟨m, rfl⟩
        · obtain ⟨m, hm⟩ := ih htl
          rw [hm]
          exact ⟨m, rfl⟩

theorem write_obj_drop_empty (pre post : List (String × GenePred)) (n : String)
    (e : GenePred) (child : String) (he : e.exons = []) :
    write_obj (pre ++ (n, e) :: post) child
      = (write_obj (pre ++ post) child).map (fun p => (p.1, p.2 + 1)) := by
  induction pre with
  | nil =>
    rw [List.nil_append, List.nil_append]
    exact write_obj_cons_empty he
  | cons hd tl ih =>
    rcases hd with ⟨hn, hv⟩
    rw [List.cons_append, List.cons_append]
    by_cases hv0 : hv.exons = []
    · rw [write_obj_cons_empty hv0, write_obj_cons_empty hv0, ih]
    · rw [write_obj_cons_render hv0, write_obj_cons_render hv0, ih]
      try rcases renderCore hn hv child with m | rd <;>
        try rcases write_obj (tl ++ post) child with m | ⟨o, k⟩ <;> rfl

theorem toBedStep_error (parent child feature : String) (sep : SepByte) (m : String)
    (row : String) : toBedStep parent child feature sep (.error m) row = .error m := rfl

theorem foldl_toBedStep_error (parent child feature : String) (sep : SepByte) (m : String)
    (lines : List String) :
    lines.foldl (toBedStep parent child feature sep) (.error m) = .error m := by
  induction lines with
  | nil => rfl
  | cons l ls ih => exact ih

theorem toBedStep_fatal {parent child feature : String} {sep : SepByte} {row : String}
    {m0 : List (String × GenePred)} {msg : String}
    (hh : rowStartsHash row = false)
    (hf : GxfRecord.parse sep row feature = .fatal msg) :
    toBedStep parent child feature sep (.ok m0) row = .error msg := by
  simp only [toBedStep, hh, hf]
  rfl

theorem to_bed_lines_fatal {lines : List String} {parent child feature : String} {sep : SepByte}
    {l : String} (hmem : l ∈ lines) (hh : rowStartsHash l = false)
    (hf : (GxfRecord.parse sep l feature).isFatal = true) :
    ∃ m, to_bed_lines lines parent child feature sep = .error m := by
  obtain ⟨pre, post, rfl⟩ := List.append_of_mem hmem
  obtain ⟨msg, hmsg⟩ : ∃ msg, GxfRecord.parse sep l feature = .fatal msg := by
    rcases hp : GxfRecord.parse sep l feature with r | e | m
    · rw [hp] at hf; cases hf
    · rw [hp] at hf; cases hf
    · exact ⟨m, rfl⟩
  rw [to_bed_lines, List.foldl_append, List.foldl_cons]
  rcases hacc : pre.foldl (toBedStep parent child feature sep) (.ok []) with m | acc
  · rw [toBedStep_error, foldl_toBedStep_error]
    exact ⟨m, rfl⟩
  · rw [toBedStep_fatal hh hmsg, foldl_toBedStep_error]
    exact ⟨msg, rfl⟩

theorem toBedStep_empty_line (parent child feature : String) (sep : SepByte)
    (acc : Except String (List (String × GenePred))) :
    toBedStep parent child feature sep acc "" = acc := by
  rcases acc with m | m <;> rfl

theorem to_bed_lines_skips_empty_line (pre post : List String)
    (parent child feature : String) (sep : SepByte) :
    to_bed_lines (pre ++ "" :: post) parent child feature sep
      = to_bed_lines (pre ++ post) parent child feature sep := by
  rw [to_bed_lines, to_bed_lines, List.foldl_append, List.foldl_append, List.foldl_cons,
    toBedStep_empty_line]

theorem to_bed_lines_total {lines : List String} {parent child feature : String} {sep : SepByte}
    (h : ∀ l ∈ lines, rowStartsHash l = false → (GxfRecord.parse sep l feature).isFatal = false) :
    ∃ m, to_bed_lines lines parent child feature sep = .ok m := by
  suffices H : ∀ (ls : List String) (m0 : List (String × GenePred)),
      (∀ l ∈ ls, rowStartsHash l = false → (GxfRecord.parse sep l feature).isFatal = false) →
      ∃ m, ls.foldl (toBedStep parent child feature sep) (.ok m0) = .ok m by
    exact H lines [] h
  intro ls
  induction ls with
  | nil => exact fun m0 _ => ⟨m0, rfl⟩
  | cons l ls ih =>
    intro m0 hl
    rw [List.foldl_cons]
    have hstep : ∃ m1, toBedStep parent child feature sep (.ok m0) l = .ok m1 := by
      simp only [toBedStep]
      rcases hh : rowStartsHash l
      · simp only [Bool.false_eq_true, if_false]
        rcases hp : GxfRecord.parse sep l feature with r | e | m
        · exact ⟨_, rfl⟩
        · exact ⟨m0, rfl⟩
        · have := hl l (List.mem_cons_self _ _) hh
          rw [hp] at this
          cases this
      · simp only [if_true]
        exact ⟨m0, rfl⟩
    obtain ⟨m1, hm1⟩ := hstep
    rw [hm1]
    exact ih m1 (fun x hx => hl x (List.mem_cons_of_mem _ hx))

theorem rtMax_parent_left (y : RecordType) : rtMax .Parent y = .Parent := by
  rcases y <;> rfl

theorem rtLe_parent {x : RecordType} (h : rtLe .Parent x) : x = .Parent := by
  rcases x
  · rfl
  · exact absurd h (by simp [rtLe, rtRank])
  · exact absurd h (by simp [rtLe, rtRank])

/-- C1 (amended): on chunk-partial entities built for one attribute key, at
most one of which is a Parent partial, `GenePred::merge` is commutative and
associative.  (As stated over all entities the claim fails: see the
counterexample with two Parent partials, where the merge is last-writer-wins.) -/
theorem c1_merge_comm_assoc_on_chunk_partials :
    (∀ a b : GenePred, chunkPartial a → chunkPartial b →
      ¬(a.record_type = .Parent ∧ b.record_type = .Parent) →
      a.merge b = b.merge a) ∧
    (∀ a b c : GenePred, chunkPartial a → chunkPartial b → chunkPartial c →
      ¬(a.record_type = .Parent ∧ b.record_type = .Parent) →
      ¬(a.record_type = .Parent ∧ c.record_type = .Parent) →
      ¬(b.record_type = .Parent ∧ c.record_type = .Parent) →
      (a.merge b).merge c = a.merge (b.merge c)) :=
  ⟨fun _ _ ha hb hp => merge_comm_partials ha hb hp,
   fun _ _ _ ha hb hc hab hac hbc => merge_assoc_partials ha hb hc hab hac hbc⟩

/-- C1 counterexample: two Parent partial entities for the same key (the
product of duplicate parent lines) merge last-writer-wins, so the merge
operator is not commutative on all pairs of partial entities. -/
theorem c1_merge_not_commutative_counterexample :
    ¬ ((⟨"chrX", 5, 10, .Forward, [], .Parent, none⟩ : GenePred).merge
        ⟨"chrY", 5, 10, .Forward, [], .Parent, none⟩
      = (⟨"chrY", 5, 10, .Forward, [], .Parent, none⟩ : GenePred).merge
        ⟨"chrX", 5, 10, .Forward, [], .Parent, none⟩) := by
  decide

/-- C1 witness: the amended commutativity and associativity at concrete
chunk-partial entities (one Parent partial, one Child partial, one Unknown
partial). -/
theorem c1_merge_comm_assoc_witness :
    ((⟨"chr1", 5, 10, .Forward, [(5, 5)], .Parent, none⟩ : GenePred).merge
        ⟨"", 0, 0, .Unknown, [(7, 3)], .Child, none⟩
      = (⟨"", 0, 0, .Unknown, [(7, 3)], .Child, none⟩ : GenePred).merge
        ⟨"chr1", 5, 10, .Forward, [(5, 5)], .Parent, none⟩) ∧
    (((⟨"chr1", 5, 10, .Forward, [(5, 5)], .Parent, none⟩ : GenePred).merge
        ⟨"", 0, 0, .Unknown, [(7, 3)], .Child, none⟩).merge
        ⟨"", 0, 0, .Unknown, [], .Unknown, none⟩
      = (⟨"chr1", 5, 10, .Forward, [(5, 5)], .Parent, none⟩ : GenePred).merge
        ((⟨"", 0, 0, .Unknown, [(7, 3)], .Child, none⟩ : GenePred).merge
          ⟨"", 0, 0, .Unknown, [], .Unknown, none⟩)) :=
  ⟨c1_merge_comm_assoc_on_chunk_partials.1 _ _ (by decide) (by decide) (by decide),
   c1_merge_comm_assoc_on_chunk_partials.2 _ _ _ (by decide) (by decide) (by decide)
     (by decide) (by decide) (by decide)⟩

/-- C2: for any completion order of the index-tagged chunk buffers (any
permutation of the sequentially computed list), sorting by chunk index and
concatenating produces output byte-identical to sequential execution. -/
theorem c2_output_order_deterministic {α : Type} (render : List α → List Nat)
    (chunks : List (List α)) (outs : List (Nat × List Nat))
    (hperm : outs.Perm (seqChunkOutputs render chunks)) :
    write_output (sortByIdx outs) = write_output (seqChunkOutputs render chunks) := by
  rw [sortByIdx_of_perm_seq hperm]

/-- C2 witness: a two-chunk run delivered in reversed completion order still
writes the sequential bytes. -/
theorem c2_output_order_witness :
    write_output (sortByIdx [(1, [50]), (0, [10, 20])])
      = write_output (seqChunkOutputs (fun c => c) [[10, 20], [50]]) :=
  c2_output_order_deterministic (fun c => c) [[10, 20], [50]] [(1, [50]), (0, [10, 20])]
    (by decide)

/-- C9: the record_type of an entity is monotone under both the per-record
fold of `to_bed` and the cross-chunk `merge`: it never decreases in the
Unknown-below-Child-below-Parent order, and once Parent it stays Parent. -/
theorem c9_record_type_monotonic :
    ∀ (a b e : GenePred) (r : GxfRecord) (parent child : String),
      rtLe a.record_type (a.merge b).record_type ∧
      rtLe e.record_type (foldRecord parent child e r).record_type ∧
      (a.record_type = .Parent → (a.merge b).record_type = .Parent) ∧
      (e.record_type = .Parent → (foldRecord parent child e r).record_type = .Parent) :=
  fun a b e r parent child =>
    ⟨(merge_record_type a b) ▸ rtLe_rtMax_left _ _,
     foldRecord_record_type_le parent child e r,
     fun hp => by rw [merge_record_type a b, hp, rtMax_parent_left],
     fun hp => rtLe_parent (hp ▸ foldRecord_record_type_le parent child e r)⟩

/-- C9 witness: monotonicity applied at a concrete Parent entity, a concrete
merge partner, and a concrete exon record, discharging the Parent hypotheses. -/
theorem c9_record_type_monotonic_witness :
    ((⟨"chr1", 5, 10, .Forward, [], .Parent, none⟩ : GenePred).merge
        ⟨"", 0, 0, .Unknown, [(7, 3)], .Child, none⟩).record_type = .Parent ∧
    (foldRecord "transcript" "exon" ⟨"chr1", 5, 10, .Forward, [], .Parent, none⟩
        ⟨"chr1", "exon", 7, 10, .Forward, ".", "g"⟩).record_type = .Parent :=
  ⟨(c9_record_type_monotonic ⟨"chr1", 5, 10, .Forward, [], .Parent, none⟩
      ⟨"", 0, 0, .Unknown, [(7, 3)], .Child, none⟩
      ⟨"chr1", 5, 10, .Forward, [], .Parent, none⟩
      ⟨"chr1", "exon", 7, 10, .Forward, ".", "g"⟩ "transcript" "exon").2.2.1 rfl,
   (c9_record_type_monotonic ⟨"chr1", 5, 10, .Forward, [], .Parent, none⟩
      ⟨"", 0, 0, .Unknown, [(7, 3)], .Child, none⟩
      ⟨"chr1", 5, 10, .Forward, [], .Parent, none⟩
      ⟨"chr1", "exon", 7, 10, .Forward, ".", "g"⟩ "transcript" "exon").2.2.2 rfl⟩

theorem rustParseU64core_lt {l : List Char} {v : Nat} (h : rustParseU64core l = some v) :
    v < U64 := by
  rw [rustParseU64core] at h
  by_cases h1 : l = []
  · rw [if_pos h1] at h
    cases h
  · rw [if_neg h1] at h
    by_cases h2 : l.all Char.isDigit
    · rw [if_pos h2] at h
      dsimp only at h
      by_cases h3 : l.foldl (fun a c => a * 10 + (c.toNat - 48)) 0 < U64
      · rw [if_pos h3] at h
        simp only [Option.some.injEq] at h
        subst h
        exact h3
      · rw [if_neg h3] at h
        cases h
    · rw [if_neg h2] at h
      cases h

theorem rustParseU64_lt {s : String} {v : Nat} (h : rustParseU64 s = some v) : v < U64 :=
  rustParseU64core_lt h

theorem wsub_one {v : Nat} (h1 : 1 ≤ v) (h2 : v < U64) : wsub v 1 = v - 1 := by
  have hU : U64 = 18446744073709551616 := by norm_num [U64]
  rw [wsub, hU]
  rw [hU] at h2
  omega

theorem parse_ok_start_end {sep : SepByte} {line attrKey : String} {r : GxfRecord}
    {f0 f1 f2 f3 f4 f5 f6 f7 f8 : String} {rest : List String}
    (h : GxfRecord.parse sep line attrKey = .ok r)
    (hf : tabFields line = f0 :: f1 :: f2 :: f3 :: f4 :: f5 :: f6 :: f7 :: f8 :: rest) :
    ∃ v w, rustParseU64 f3 = some v ∧ rustParseU64 f4 = some w ∧
      r.start = wsub v 1 ∧ (1 ≤ v → r.start = v - 1) ∧ r.end_ = w := by
  rw [GxfRecord.parse] at h
  by_cases hl : line = ""
  · rw [if_pos hl] at h
    cases h
  · rw [if_neg hl, hf] at h
    dsimp only at h
    rcases ha : Attribute.parse sep f8 attrKey with u | fv <;> rw [ha] at h <;> dsimp only at h
    · cases h
    · rcases hs : rustParseU64 f3 with _ | v <;> rw [hs] at h <;> dsimp only at h
      · cases h
      · rcases he : rustParseU64 f4 with _ | w <;> rw [he] at h <;> dsimp only at h
        · cases h
        · simp only [PResult.ok.injEq] at h
          subst h
          exact ⟨v, w, rfl, rfl, rfl,
            fun h1 => wsub_one h1 (rustParseU64_lt hs), rfl⟩

theorem parse_fatal_of_short_line {sep : SepByte} {feature l : String}
    (hl : l ≠ "") (hlen : (tabFields l).length < 9) :
    (GxfRecord.parse sep l feature).isFatal = true := by
  rw [GxfRecord.parse, if_neg hl]
  rcases hf : tabFields l with _ | ⟨f0, _ | ⟨f1, _ | ⟨f2, _ | ⟨f3, _ | ⟨f4, _ |
    ⟨f5, _ | ⟨f6, _ | ⟨f7, _ | ⟨f8, rest⟩⟩⟩⟩⟩⟩⟩⟩⟩ <;>
      first
        | rfl
        | (rw [hf] at hlen; simp only [List.length_cons] at hlen; omega)

theorem parse_fatal_of_bad_start {sep : SepByte} {feature l fv : String}
    {f0 f1 f2 f3 f4 f5 f6 f7 f8 : String} {rest : List String}
    (hl : l ≠ "")
    (hf : tabFields l = f0 :: f1 :: f2 :: f3 :: f4 :: f5 :: f6 :: f7 :: f8 :: rest)
    (ha : Attribute.parse sep f8 feature = .ok fv)
    (hs : rustParseU64 f3 = none) :
    (GxfRecord.parse sep l feature).isFatal = true := by
  rw [GxfRecord.parse, if_neg hl, hf]
  dsimp only
  rw [ha]
  dsimp only
  rw [hs]
  rfl

theorem parse_fatal_of_bad_end {sep : SepByte} {feature l fv : String}
    {f0 f1 f2 f3 f4 f5 f6 f7 f8 : String} {rest : List String} {v : Nat}
    (hl : l ≠ "")
    (hf : tabFields l = f0 :: f1 :: f2 :: f3 :: f4 :: f5 :: f6 :: f7 :: f8 :: rest)
    (ha : Attribute.parse sep f8 feature = .ok fv)
    (hs : rustParseU64 f3 = some v)
    (he : rustParseU64 f4 = none) :
    (GxfRecord.parse sep l feature).isFatal = true := by
  rw [GxfRecord.parse, if_neg hl, hf]
  dsimp only
  rw [ha]
  dsimp only
  rw [hs]
  dsimp only
  rw [he]
  rfl

/-- C3 (amended): a non-comment line with fewer than nine tab-separated fields
or with an unparsable numeric coordinate — a start that does not parse as u64,
or an end that does not parse as u64 — panics, aborting the aggregation of any
input containing it; but an empty line is not a hard error — its recoverable
parse error is silently discarded and processing continues (see the
counterexample), so fail-fast holds for the field-count and coordinate cases
only. -/
theorem c3_fail_fast_amended :
    (∀ (lines : List String) (parent child feature : String) (sep : SepByte) (l : String),
      l ∈ lines → rowStartsHash l = false →
      (GxfRecord.parse sep l feature).isFatal = true →
      ∃ m, to_bed_lines lines parent child feature sep = .error m) ∧
    (∀ (sep : SepByte) (feature l : String), l ≠ "" → (tabFields l).length < 9 →
      (GxfRecord.parse sep l feature).isFatal = true) ∧
    (∀ (sep : SepByte) (feature l fv : String)
        (f0 f1 f2 f3 f4 f5 f6 f7 f8 : String) (rest : List String),
      l ≠ "" →
      tabFields l = f0 :: f1 :: f2 :: f3 :: f4 :: f5 :: f6 :: f7 :: f8 :: rest →
      Attribute.parse sep f8 feature = .ok fv →
      rustParseU64 f3 = none →
      (GxfRecord.parse sep l feature).isFatal = true) ∧
    (∀ (sep : SepByte) (feature l fv : String)
        (f0 f1 f2 f3 f4 f5 f6 f7 f8 : String) (rest : List String) (v : Nat),
      l ≠ "" →
      tabFields l = f0 :: f1 :: f2 :: f3 :: f4 :: f5 :: f6 :: f7 :: f8 :: rest →
      Attribute.parse sep f8 feature = .ok fv →
      rustParseU64 f3 = some v →
      rustParseU64 f4 = none →
      (GxfRecord.parse sep l feature).isFatal = true) ∧
    (∀ (pre post : List String) (parent child feature : String) (sep : SepByte),
      to_bed_lines (pre ++ "" :: post) parent child feature sep
        = to_bed_lines (pre ++ post) parent child feature sep) :=
  ⟨fun _ _ _ _ _ _ hmem hh hf => to_bed_lines_fatal hmem hh hf,
   fun _ _ _ hl hlen => parse_fatal_of_short_line hl hlen,
   fun _ _ _ _ _ _ _ _ _ _ _ _ _ _ hl hf ha hs => parse_fatal_of_bad_start hl hf ha hs,
   fun _ _ _ _ _ _ _ _ _ _ _ _ _ _ _ hl hf ha hs he =>
    parse_fatal_of_bad_end hl hf ha hs he,
   fun pre post parent child feature sep =>
    to_bed_lines_skips_empty_line pre post parent child feature sep⟩

/-- C3 counterexample: an input whose first line is empty (a malformed line)
aggregates successfully — the empty line is skipped, not a hard error, so the
claim that any malformed line aborts the run is false. -/
theorem c3_empty_line_skipped_counterexample :
    to_bed_lines ["", "chr1\tsrc\ttranscript\t100\t500\t.\t+\t.\tgene_id \"g\";"]
      "transcript" "exon" "gene_id" .space
      = .ok [("g", ⟨"chr1", 99, 500, .Forward, [], .Parent, none⟩)] := rfl

/-- C3 witness: a three-field line, a line with an unparsable start coordinate,
and a line with an unparsable end coordinate each make their parse a panic, and
the whole aggregation of an input containing such a line aborts. -/
theorem c3_fail_fast_witness :
    ((GxfRecord.parse .space "a\tb\tc" "gene_id").isFatal = true) ∧
    ((GxfRecord.parse .space "a\tb\tc\tx\t2\t.\t+\t.\tk \"v\";" "k").isFatal = true) ∧
    ((GxfRecord.parse .space "a\tb\tc\t1\tx\t.\t+\t.\tk \"v\";" "k").isFatal = true) ∧
    (∃ m, to_bed_lines ["a\tb\tc"] "transcript" "exon" "gene_id" .space = .error m) :=
  ⟨c3_fail_fast_amended.2.1 .space "gene_id" "a\tb\tc" (by decide) (by decide),
   c3_fail_fast_amended.2.2.1 .space "k" "a\tb\tc\tx\t2\t.\t+\t.\tk \"v\";" "v"
    "a" "b" "c" "x" "2" "." "+" "." "k \"v\";" [] (by decide) rfl rfl rfl,
   c3_fail_fast_amended.2.2.2.1 .space "k" "a\tb\tc\t1\tx\t.\t+\t.\tk \"v\";" "v"
    "a" "b" "c" "1" "x" "." "+" "." "k \"v\";" [] 1 (by decide) rfl rfl rfl rfl,
   c3_fail_fast_amended.1 ["a\tb\tc"] "transcript" "exon" "gene_id" .space "a\tb\tc"
    (by decide) (by decide) (by decide)⟩

/-- C4 (code bug): a record whose configured attribute key is absent carries
the empty extracted identifier (`has_feature` is false), yet `to_bed`
aggregates it under the empty-string key instead of excluding it: the record
contributes an exon to the entity stored at key `""`. -/
theorem c4_empty_identifier_still_aggregated :
    (GxfRecord.parse .space "chr1\tsrc\texon\t100\t200\t.\t+\t.\tother \"x\";" "gene_id"
      = .ok ⟨"chr1", "exon", 99, 200, .Forward, ".", ""⟩) ∧
    (GxfRecord.has_feature ⟨"chr1", "exon", 99, 200, .Forward, ".", ""⟩ = false) ∧
    (to_bed_lines ["chr1\tsrc\texon\t100\t200\t.\t+\t.\tother \"x\";"]
      "transcript" "exon" "gene_id" .space
      = .ok [("", ⟨"", 0, 0, .Unknown, [(99, 101)], .Child, none⟩)]) :=
  ⟨rfl, rfl, rfl⟩

/-- C5: a successfully parsed line has start equal to the raw 1-based start
field minus one (via wrapping u64 subtraction, literally `raw - 1` whenever the
raw start is at least one) and end equal to the raw end field unchanged; in
particular a parent line with raw start 100 yields an entity with start 99 and
the rendered BED start field is `99`. -/
theorem c5_start_is_raw_minus_one :
    (∀ (sep : SepByte) (line attrKey : String) (r : GxfRecord)
        (f0 f1 f2 f3 f4 f5 f6 f7 f8 : String) (rest : List String),
      GxfRecord.parse sep line attrKey = .ok r →
      tabFields line = f0 :: f1 :: f2 :: f3 :: f4 :: f5 :: f6 :: f7 :: f8 :: rest →
      ∃ v w, rustParseU64 f3 = some v ∧ rustParseU64 f4 = some w ∧
        r.start = wsub v 1 ∧ (1 ≤ v → r.start = v - 1) ∧ r.end_ = w) ∧
    (to_bed_lines ["chr1\tsrc\ttranscript\t100\t500\t.\t+\t.\tgene_id \"g\";",
        "chr1\tsrc\texon\t100\t200\t.\t+\t.\tgene_id \"g\";"]
        "transcript" "exon" "gene_id" .space
      = .ok [("g", ⟨"chr1", 99, 500, .Forward, [(99, 101)], .Parent, none⟩)]) ∧
    (write_obj [("g", ⟨"chr1", 99, 500, .Forward, [(99, 101)], .Parent, none⟩)] "exon"
      = .ok ("chr1\t99\t500\tg\t0\t+\t99\t200\t0\t2\t101,401,\t0,0,\n", 0)) ∧
    ((tabFields "chr1\t99\t500\tg\t0\t+\t99\t200\t0\t2\t101,401,\t0,0,\n").getD 1 ""
      = "99") :=
  ⟨fun _ _ _ _ _ _ _ _ _ _ _ _ _ _ h hf => parse_ok_start_end h hf, rfl, rfl, rfl⟩

/-- C5 witness: the conversion applied to the concrete parent line with raw
start 100 and raw end 500. -/
theorem c5_start_is_raw_minus_one_witness :
    ∃ v w, rustParseU64 "100" = some v ∧ rustParseU64 "500" = some w ∧
      (⟨"chr1", "transcript", 99, 500, .Forward, ".", "g"⟩ : GxfRecord).start = wsub v 1 ∧
      (1 ≤ v →
        (⟨"chr1", "transcript", 99, 500, .Forward, ".", "g"⟩ : GxfRecord).start = v - 1) ∧
      (⟨"chr1", "transcript", 99, 500, .Forward, ".", "g"⟩ : GxfRecord).end_ = w :=
  c5_start_is_raw_minus_one.1 .space "chr1\tsrc\ttranscript\t100\t500\t.\t+\t.\tgene_id \"g\";"
    "gene_id" ⟨"chr1", "transcript", 99, 500, .Forward, ".", "g"⟩
    "chr1" "src" "transcript" "100" "500" "." "+" "." "gene_id \"g\";" [] rfl rfl

/-- C6 (amended): for a non-CDS child configuration, the emitted thickStart is
the start of the first recorded exon and the emitted thickEnd is the end of the
last recorded exon (both taken before first/last-exon snapping); they equal the
entity's start/end exactly when the exon hull coincides with the entity bounds
— but not in general, so the claim's "thickStart equals entity start" fails
(see counterexample). -/
theorem c6_thick_fields_of_not_cds :
    ∀ (t : String) (e : GenePred) (child : String) (rd : RowData),
      child ≠ "CDS" → renderCore t e child = .ok rd →
      (rd.thickStart = cdsStartOf e ∧ rd.thickEnd = cdsEndOf e) ∧
      (cdsStartOf e = e.start → rd.thickStart = e.start) ∧
      (cdsEndOf e = e.end_ → rd.thickEnd = e.end_) := by
  intro t e child rd hch h
  have h2 := renderCore_thick_of_not_cds hch h
  exact ⟨h2, fun hs => hs ▸ h2.1, fun hs => hs ▸ h2.2⟩

/-- C6 counterexample: an entity with start 10 and a single exon starting at
20 (no CDS information, child feature `"exon"`) is emitted with thickStart 20
and thickEnd 25, not the entity's start 10 and end 30. -/
theorem c6_thick_not_entity_bounds_counterexample :
    (renderCore "t" ⟨"c", 10, 30, .Forward, [(20, 5)], .Parent, none⟩ "exon"
      = .ok ⟨"c", 10, 30, "t", "0", .Forward, 20, 25, "0", 2, "15,10,", "0,10,"⟩) ∧
    (20 : Nat) ≠ 10 ∧ (25 : Nat) ≠ 30 :=
  ⟨rfl, by decide, by decide⟩

/-- C6 witness: the amended statement at an entity whose single exon spans the
whole entity, where the thick bounds do default to the entity bounds. -/
theorem c6_thick_fields_witness :
    (cdsStartOf ⟨"c", 10, 30, .Forward, [(10, 20)], .Parent, none⟩ = 10 →
      (⟨"c", 10, 30, "t", "0", .Forward, 10, 30, "0", 1, "20,", "0,"⟩ : RowData).thickStart
        = 10) ∧
    ((⟨"c", 10, 30, "t", "0", .Forward, 10, 30, "0", 1, "20,", "0,"⟩ : RowData).thickStart
      = cdsStartOf ⟨"c", 10, 30, .Forward, [(10, 20)], .Parent, none⟩) :=
  ⟨(c6_thick_fields_of_not_cds "t" ⟨"c", 10, 30, .Forward, [(10, 20)], .Parent, none⟩
      "exon" ⟨"c", 10, 30, "t", "0", .Forward, 10, 30, "0", 1, "20,", "0,"⟩
      (by decide) rfl).2.1,
   (c6_thick_fields_of_not_cds "t" ⟨"c", 10, 30, .Forward, [(10, 20)], .Parent, none⟩
      "exon" ⟨"c", 10, 30, "t", "0", .Forward, 10, 30, "0", 1, "20,", "0,"⟩
      (by decide) rfl).1.1⟩

/-- C7: an entity whose exon set ends aggregation empty is dropped from the
output without failing: removing it from the map leaves the rendered bytes of
every other entity unchanged and decrements only the skip counter reported at
the end of the run. -/
theorem c7_empty_exon_entity_dropped_and_counted :
    ∀ (pre post : List (String × GenePred)) (n : String) (e : GenePred) (child : String),
      e.exons = [] →
      write_obj (pre ++ (n, e) :: post) child
        = (write_obj (pre ++ post) child).map (fun p => (p.1, p.2 + 1)) :=
  fun pre post n e child he => write_obj_drop_empty pre post n e child he

/-- C7 witness: a childless entity between two rendered entities is skipped,
counted once, and both neighbours are still written. -/
theorem c7_empty_exon_entity_witness :
    write_obj [("a", ⟨"c", 10, 30, .Forward, [(10, 20)], .Parent, none⟩),
        ("b", GenePred.new),
        ("d", ⟨"c", 40, 50, .Forward, [(40, 10)], .Parent, none⟩)] "exon"
      = (write_obj [("a", ⟨"c", 10, 30, .Forward, [(10, 20)], .Parent, none⟩),
          ("d", ⟨"c", 40, 50, .Forward, [(40, 10)], .Parent, none⟩)] "exon").map
          (fun p => (p.1, p.2 + 1)) :=
  c7_empty_exon_entity_dropped_and_counted
    [("a", ⟨"c", 10, 30, .Forward, [(10, 20)], .Parent, none⟩)]
    [("d", ⟨"c", 40, 50, .Forward, [(40, 10)], .Parent, none⟩)]
    "b" GenePred.new "exon" rfl

/-- C8 (amended): for entities with a nonempty exon set, reaching the renderer
with start >= end — or, for a non-CDS child configuration, with inverted
computed thick bounds — terminates the entire run with an error; an entity
with an empty exon set is skipped before the check even when its start >= end
(see counterexample), so the claim needs the nonempty-exon restriction. -/
theorem c8_inverted_bounds_fatal :
    (∀ (data : List (String × GenePred)) (child n : String) (e : GenePred),
      (n, e) ∈ data → ¬ e.exons = [] → e.start ≥ e.end_ →
      ∃ m, write_obj data child = .error m) ∧
    (∀ (data : List (String × GenePred)) (child n : String) (e : GenePred),
      (n, e) ∈ data → ¬ e.exons = [] → child ≠ "CDS" → cdsStartOf e ≥ cdsEndOf e →
      ∃ m, write_obj data child = .error m) :=
  ⟨fun _ _ _ _ hm hne hse =>
    write_obj_error_of_mem hm hne (renderCore_error_of_start_ge hse),
   fun _ _ _ _ hm hne hch hth =>
    write_obj_error_of_mem hm hne (renderCore_error_of_thick_bad hch hth)⟩

/-- C8 counterexample: `GenePred::new` has start 0 >= end 0 yet reaches the
renderer and is skipped (output written, skip counted, no fatal error), so
"every entity with start >= end is fatal" is false as stated. -/
theorem c8_empty_exons_not_fatal_counterexample :
    GenePred.new.start ≥ GenePred.new.end_ ∧
    write_obj [("t", GenePred.new)] "exon" = .ok ("", 1) :=
  ⟨le_refl 0, rfl⟩

/-- C8 witness: a nonempty entity with start 30 >= end 10 aborts the run. -/
theorem c8_inverted_bounds_fatal_witness :
    ∃ m, write_obj [("t", ⟨"c", 30, 10, .Forward, [(5, 5)], .Parent, none⟩)] "exon"
      = .error m :=
  c8_inverted_bounds_fatal.1 [("t", ⟨"c", 30, 10, .Forward, [(5, 5)], .Parent, none⟩)]
    "exon" "t" ⟨"c", 30, 10, .Forward, [(5, 5)], .Parent, none⟩
    (by decide) (by decide) (by decide)

/-- C10 (amended): aggregation is total on any input whose lines all parse
without panicking, even when a child record has end < start: the exon size is
computed with wrapping u64 subtraction and the entity survives to the
renderer, where the `start >= end` check is performed; a child-only inverted
record is indeed rejected there — but an inverted exon strictly inside valid
entity bounds is emitted (see counterexample), so the renderer check operates
on entity-level bounds only. -/
theorem c10_inverted_child_aggregation_total :
    (∀ (lines : List String) (parent child feature : String) (sep : SepByte),
      (∀ l ∈ lines, rowStartsHash l = false →
        (GxfRecord.parse sep l feature).isFatal = false) →
      ∃ m, to_bed_lines lines parent child feature sep = .ok m) ∧
    (GxfRecord.parse .space "chr1\tsrc\texon\t500\t400\t.\t+\t.\tgene_id \"g\";" "gene_id"
      = .ok ⟨"chr1", "exon", 499, 400, .Forward, ".", "g"⟩) ∧
    (to_bed_lines ["chr1\tsrc\texon\t500\t400\t.\t+\t.\tgene_id \"g\";"]
        "transcript" "exon" "gene_id" .space
      = .ok [("g", ⟨"", 0, 0, .Unknown, [(499, wsub 400 499)], .Child, none⟩)]) ∧
    (write_obj [("g", ⟨"", 0, 0, .Unknown, [(499, wsub 400 499)], .Child, none⟩)] "exon"
      = .error "ERROR: start >= end in record") :=
  ⟨fun _ _ _ _ _ h => to_bed_lines_total h, rfl, rfl, rfl⟩

/-- C10 counterexample: an inverted child record (raw 301..200) between two
valid exons of a valid parent is aggregated and then emitted — its entity is
not rejected by the renderer, because the entity-level bounds and thick bounds
are valid; the wrapped exon size appears verbatim in the blockSizes column. -/
theorem c10_interior_inverted_exon_emitted_counterexample :
    (to_bed_lines ["chr1\tsrc\ttranscript\t11\t1000\t.\t+\t.\tgene_id \"g\";",
        "chr1\tsrc\texon\t101\t150\t.\t+\t.\tgene_id \"g\";",
        "chr1\tsrc\texon\t301\t200\t.\t+\t.\tgene_id \"g\";",
        "chr1\tsrc\texon\t401\t500\t.\t+\t.\tgene_id \"g\";"]
        "transcript" "exon" "gene_id" .space
      = .ok [("g", ⟨"chr1", 10, 1000, .Forward,
          [(100, 50), (300, wsub 200 300), (400, 100)], .Parent, none⟩)]) ∧
    (write_obj [("g", ⟨"chr1", 10, 1000, .Forward,
          [(100, 50), (300, wsub 200 300), (400, 100)], .Parent, none⟩)] "exon"
      = .ok ("chr1\t10\t1000\tg\t0\t+\t100\t500\t0\t3\t140,18446744073709551516,600,\t0,290,390,\n",
          0)) :=
  ⟨rfl, rfl⟩

/-- C10 witness: totality applied to the concrete single inverted child line. -/
theorem c10_inverted_child_total_witness :
    ∃ m, to_bed_lines ["chr1\tsrc\texon\t500\t400\t.\t+\t.\tgene_id \"g\";"]
      "transcript" "exon" "gene_id" .space = .ok m :=
  c10_inverted_child_aggregation_total.1
    ["chr1\tsrc\texon\t500\t400\t.\t+\t.\tgene_id \"g\";"]
    "transcript" "exon" "gene_id" .space (by decide)
